import Mathlib

/-!
Verification development for the ts-toolbox monad-transformer core.

Shallow embedding of:
- the optional-value container `Maybe` (src/src/typeclass/maybe.ts),
- the error-result container `Result` (src/src/typeclass/result.ts),
- the inner-monad descriptor `MonadTransDescriptor` (src/src/typeclass/monad.ts),
- the monoid descriptor `Monoid` (src/src/typeclass/monad.ts),
- the four transformers `MaybeT` (src/src/typeclass/transformer/MaybeT.ts),
  `ResultT` and `WriterT` (typeclass/transformer sources), and `ReaderT`
  (typeclass/transformer source).

TypeScript classes with readonly fields become Lean structures; methods become
functions on those structures; the optional `map?` field of the descriptor and
the `??` fallback in the sources become a `match` on an `Option` field.
-/

namespace TsToolbox

/-- Embeds the `Maybe` sum type: `Some(value)` or the shared `None` constant. -/
inductive Maybe (A : Type) : Type
  | some (value : A)
  | none

namespace Maybe

variable {A B : Type}

/-- Embeds `Some.map` / `None.map`: `Some` applies the function, `None` ignores it
and returns the `None` constant. -/
def map : Maybe A → (A → B) → Maybe B
  | some v, fn => some (fn v)
  | none, _ => none

/-- Embeds `Some.flatMap` / `None.flatMap`. -/
def flatMap : Maybe A → (A → Maybe B) → Maybe B
  | some v, fn => fn v
  | none, _ => none

/-- Embeds `Maybe.isSome`. -/
def isSome : Maybe A → Bool
  | some _ => true
  | none => false

/-- Embeds `Maybe.isNone`. -/
def isNone : Maybe A → Bool
  | some _ => false
  | none => true

/-- Embeds `Maybe.fromNullable`: `null`/`undefined` (modelled by `Option.none`)
maps to `None`, anything else to `Some` of the value. -/
def fromNullable : Option A → Maybe A
  | Option.none => none
  | Option.some v => some v

end Maybe

/-- Embeds the `Result` sum type: `Ok(value)` or `Err(error)`. -/
inductive Result (A E : Type) : Type
  | ok (value : A)
  | err (error : E)

namespace Result

variable {A B E : Type}

/-- Embeds `Ok.map` / `Err.map`: `Ok` applies the function, `Err` rebuilds an
`Err` carrying the same error value. -/
def map : Result A E → (A → B) → Result B E
  | ok v, fn => ok (fn v)
  | err e, _ => err e

/-- Embeds `Ok.flatMap` / `Err.flatMap`. -/
def flatMap : Result A E → (A → Result B E) → Result B E
  | ok v, fn => fn v
  | err e, _ => err e

/-- Embeds `Result.isOk`. -/
def isOk : Result A E → Bool
  | ok _ => true
  | err _ => false

/-- Embeds `Result.isErr`. -/
def isErr : Result A E → Bool
  | ok _ => false
  | err _ => true

end Result

/-- Embeds the inner-monad descriptor `MonadTransDescriptor<M>`:
`{ of, flatMap, map? }` with `map` optional. -/
structure MonadTransDescriptor (M : Type → Type) : Type 1 where
  of : {A : Type} → A → M A
  flatMap : {A B : Type} → M A → (A → M B) → M B
  map? : Option ((A B : Type) → M A → (A → B) → M B)

/-- Lawfulness of a descriptor, as required by the spec: `of` and `flatMap`
satisfy the monad laws, and `map`, when supplied, agrees with the
`flatMap`+`of` derivation. -/
structure LawfulDescriptor {M : Type → Type} (D : MonadTransDescriptor M) : Prop where
  left_id : ∀ {A B : Type} (a : A) (f : A → M B), D.flatMap (D.of a) f = f a
  right_id : ∀ {A : Type} (m : M A), D.flatMap m D.of = m
  assoc : ∀ {A B C : Type} (m : M A) (f : A → M B) (g : B → M C),
    D.flatMap (D.flatMap m f) g = D.flatMap m fun a => D.flatMap (f a) g
  map_agrees : ∀ (mp : (A B : Type) → M A → (A → B) → M B),
    D.map? = Option.some mp →
    ∀ {A B : Type} (m : M A) (f : A → B), mp A B m f = D.flatMap m fun a => D.of (f a)

/-- The descriptor fallback protocol of spec section 4.5: use `map` when the
descriptor supplies it, otherwise derive it as `flatMap(m, a => of(fn(a)))`. -/
def MonadTransDescriptor.mapD {M : Type → Type} {A B : Type}
    (D : MonadTransDescriptor M) (m : M A) (fn : A → B) : M B :=
  match D.map? with
  | Option.some mp => mp A B m fn
  | Option.none => D.flatMap m fun a => D.of (fn a)

/-- A descriptor identical to `D` except that it does not supply `map`
(models passing an equivalent descriptor lacking `map`). -/
def MonadTransDescriptor.eraseMap {M : Type → Type}
    (D : MonadTransDescriptor M) : MonadTransDescriptor M :=
  MonadTransDescriptor.mk (fun a => D.of a) (fun m f => D.flatMap m f) Option.none

/-- Embeds the monoid descriptor `Monoid<W>`: `{ empty, concat }`. -/
structure Monoid (W : Type) : Type where
  empty : W
  concat : W → W → W

/-- Lawfulness of a monoid descriptor: `concat` associative, `empty` a
two-sided identity. -/
structure LawfulMonoid {W : Type} (mon : Monoid W) : Prop where
  concat_assoc : ∀ a b c, mon.concat (mon.concat a b) c = mon.concat a (mon.concat b c)
  empty_left : ∀ a, mon.concat mon.empty a = a
  empty_right : ∀ a, mon.concat a mon.empty = a

/-- Embeds `MaybeTImpl<URI, A>`: wraps `m : M<Maybe<A>>` together with the
inner-monad descriptor held by the instance. -/
structure MaybeT (M : Type → Type) (A : Type) : Type 1 where
  m : M (Maybe A)
  monad : MonadTransDescriptor M

namespace MaybeT

variable {M : Type → Type} {A B : Type}

/-- Embeds `MaybeTImpl.run`: returns the wrapped value. -/
def run (t : MaybeT M A) : M (Maybe A) :=
  t.m

/-- Embeds `MaybeTImpl.map`: maps inside the inner monad via `monad.map` when
present, else via the `flatMap`+`of` fallback; inside the `Maybe`, `Some`
is mapped and `None` is left as `None`. -/
def map (t : MaybeT M A) (fn : A → B) : MaybeT M B :=
  MaybeT.mk
    (match t.monad.map? with
      | Option.some mp =>
          mp (Maybe A) (Maybe B) t.m fun maybe =>
            match maybe with
            | Maybe.some a => (Maybe.some a).map fn
            | Maybe.none => Maybe.none
      | Option.none =>
          t.monad.flatMap t.m fun maybe =>
            match maybe with
            | Maybe.some a => t.monad.of ((Maybe.some a).map fn)
            | Maybe.none => t.monad.of Maybe.none)
    t.monad

/-- Embeds `MaybeTImpl.flatMap`: for each `Maybe<A>` inside `M`, a `Some(a)`
continues with `fn(a).run()`, a `None` short-circuits to `monad.of(None)`. -/
def flatMap (t : MaybeT M A) (fn : A → MaybeT M B) : MaybeT M B :=
  MaybeT.mk
    (t.monad.flatMap t.m fun maybe =>
      match maybe with
      | Maybe.some a => (fn a).run
      | Maybe.none => t.monad.of Maybe.none)
    t.monad

/-- Embeds the `MaybeT` factory's `of`: wraps `monad.of(Maybe.some(a))`. -/
def of (monad : MonadTransDescriptor M) (a : A) : MaybeT M A :=
  MaybeT.mk (monad.of (Maybe.some a)) monad

/-- Embeds the `MaybeT` factory's `from`: wraps an existing `M<Maybe<A>>`. -/
def fromM (monad : MonadTransDescriptor M) (m : M (Maybe A)) : MaybeT M A :=
  MaybeT.mk m monad

/-- Embeds the `MaybeT` factory's `lift`: maps every inner value to `Some`. -/
def lift (monad : MonadTransDescriptor M) (m : M A) : MaybeT M A :=
  MaybeT.mk
    (match monad.map? with
      | Option.some mp => mp A (Maybe A) m fun a => Maybe.some a
      | Option.none => monad.flatMap m fun a => monad.of (Maybe.some a))
    monad

end MaybeT

/-- Embeds `ResultTImpl<URI, E, A>`: wraps `m : M<Result<A, E>>` together with
the inner-monad descriptor held by the instance. -/
structure ResultT (M : Type → Type) (E A : Type) : Type 1 where
  m : M (Result A E)
  monad : MonadTransDescriptor M

namespace ResultT

variable {M : Type → Type} {E A B : Type}

/-- Embeds `ResultTImpl.run`. -/
def run (t : ResultT M E A) : M (Result A E) :=
  t.m

/-- Embeds `ResultTImpl.map`: `Ok` is mapped via `ok.map(fn)`, `Err` is rebuilt
as `Result.err(err.error)` carrying the same error value. -/
def map (t : ResultT M E A) (fn : A → B) : ResultT M E B :=
  ResultT.mk
    (match t.monad.map? with
      | Option.some mp =>
          mp (Result A E) (Result B E) t.m fun result =>
            match result with
            | Result.ok v => (Result.ok v).map fn
            | Result.err e => Result.err e
      | Option.none =>
          t.monad.flatMap t.m fun result =>
            match result with
            | Result.ok v => t.monad.of ((Result.ok v).map fn)
            | Result.err e => t.monad.of (Result.err e))
    t.monad

/-- Embeds `ResultTImpl.flatMap`: `Ok(a)` continues with `fn(a).run()`,
`Err(e)` short-circuits to `monad.of(Result.err(e))`. -/
def flatMap (t : ResultT M E A) (fn : A → ResultT M E B) : ResultT M E B :=
  ResultT.mk
    (t.monad.flatMap t.m fun result =>
      match result with
      | Result.ok v => (fn v).run
      | Result.err e => t.monad.of (Result.err e))
    t.monad

/-- Embeds the `ResultT` factory's `of`: wraps `monad.of(Result.ok(a))`. -/
def of (monad : MonadTransDescriptor M) (a : A) : ResultT M E A :=
  ResultT.mk (monad.of (Result.ok a)) monad

/-- Embeds the `ResultT` factory's `from`. -/
def fromM (monad : MonadTransDescriptor M) (m : M (Result A E)) : ResultT M E A :=
  ResultT.mk m monad

/-- Embeds the `ResultT` factory's `lift`. -/
def lift (monad : MonadTransDescriptor M) (m : M A) : ResultT M E A :=
  ResultT.mk
    (match monad.map? with
      | Option.some mp => mp A (Result A E) m fun a => Result.ok a
      | Option.none => monad.flatMap m fun a => monad.of (Result.ok a))
    monad

end ResultT

/-- Embeds `ReaderTImpl<R, URI, A>`: wraps a function `R -> M<A>` together with
the inner-monad descriptor held by the instance. -/
structure ReaderT (R : Type) (M : Type → Type) (A : Type) : Type 1 where
  fn : R → M A
  monad : MonadTransDescriptor M

namespace ReaderT

variable {R : Type} {M : Type → Type} {A B : Type}

/-- Embeds `ReaderTImpl.run`: applies the wrapped function to the environment. -/
def run (t : ReaderT R M A) (r : R) : M A :=
  t.fn r

/-- Embeds `ReaderTImpl.map`: defers environment application, then maps the
inner value via `monad.map` or the `flatMap`+`of` fallback. -/
def map (t : ReaderT R M A) (fn : A → B) : ReaderT R M B :=
  ReaderT.mk
    (fun r =>
      match t.monad.map? with
      | Option.some mp => mp A B (t.fn r) fn
      | Option.none => t.monad.flatMap (t.fn r) fun a => t.monad.of (fn a))
    t.monad

/-- Embeds `ReaderTImpl.flatMap`: threads the same environment to the original
computation and to every continuation. -/
def flatMap (t : ReaderT R M A) (fn : A → ReaderT R M B) : ReaderT R M B :=
  ReaderT.mk
    (fun r => t.monad.flatMap (t.run r) fun a => (fn a).run r)
    t.monad

/-- Embeds the `ReaderT` factory's `of`: ignores the environment. -/
def of (monad : MonadTransDescriptor M) (a : A) : ReaderT R M A :=
  ReaderT.mk (fun _ => monad.of a) monad

/-- Embeds the `ReaderT` factory's `from`: wraps a caller-supplied function. -/
def fromM (monad : MonadTransDescriptor M) (f : R → M A) : ReaderT R M A :=
  ReaderT.mk f monad

/-- Embeds the `ReaderT` factory's `lift`: constant function returning `m`. -/
def lift (monad : MonadTransDescriptor M) (m : M A) : ReaderT R M A :=
  ReaderT.mk (fun _ => m) monad

end ReaderT

/-- Embeds `WriterTImpl<URI, W, A>`: wraps `m : M<[A, W]>` together with the
inner-monad descriptor and the monoid held by the instance. -/
structure WriterT (M : Type → Type) (W A : Type) : Type 1 where
  m : M (A × W)
  monad : MonadTransDescriptor M
  monoid : Monoid W

namespace WriterT

variable {M : Type → Type} {W A B : Type}

/-- Embeds `WriterTImpl.run`. -/
def run (t : WriterT M W A) : M (A × W) :=
  t.m

/-- Embeds `WriterTImpl.map`: transforms the first component of the pair and
leaves the log component untouched. -/
def map (t : WriterT M W A) (fn : A → B) : WriterT M W B :=
  WriterT.mk
    (match t.monad.map? with
      | Option.some mp => mp (A × W) (B × W) t.m fun p => (fn p.1, p.2)
      | Option.none => t.monad.flatMap t.m fun p => t.monad.of (fn p.1, p.2))
    t.monad t.monoid

/-- Embeds `WriterTImpl.flatMap`: unwraps the pair `(a, w)`, runs `fn(a)`, and
combines logs via `monoid.concat(w, w2)` with the original log first. -/
def flatMap (t : WriterT M W A) (fn : A → WriterT M W B) : WriterT M W B :=
  WriterT.mk
    (t.monad.flatMap t.m fun p =>
      t.monad.flatMap (fn p.1).run fun q =>
        t.monad.of (q.1, t.monoid.concat p.2 q.2))
    t.monad t.monoid

/-- Embeds the `WriterT` factory's `of`: pairs the value with the empty log. -/
def of (monad : MonadTransDescriptor M) (monoid : Monoid W) (a : A) : WriterT M W A :=
  WriterT.mk (monad.of (a, monoid.empty)) monad monoid

/-- Embeds the `WriterT` factory's `from`. -/
def fromM (monad : MonadTransDescriptor M) (monoid : Monoid W) (m : M (A × W)) :
    WriterT M W A :=
  WriterT.mk m monad monoid

/-- Embeds the `WriterT` factory's `lift`: pairs every inner value with the
empty log. -/
def lift (monad : MonadTransDescriptor M) (monoid : Monoid W) (m : M A) :
    WriterT M W A :=
  WriterT.mk
    (match monad.map? with
      | Option.some mp => mp A (A × W) m fun a => (a, monoid.empty)
      | Option.none => monad.flatMap m fun a => monad.of (a, monoid.empty))
    monad monoid

end WriterT

/-- The identity inner monad, used as a concrete lawful descriptor instance. -/
abbrev Id0 : Type → Type := fun A => A

/-- A lawful descriptor for the identity inner monad, supplying `map`. -/
def idD : MonadTransDescriptor Id0 :=
  MonadTransDescriptor.mk (fun a => a) (fun m f => f m)
    (Option.some (fun _ _ m f => f m))

/-- Nat-addition monoid descriptor used as a concrete lawful monoid instance. -/
def natAddMonoid : Monoid Nat :=
  Monoid.mk 0 (fun a b => a + b)

theorem idD_lawful : LawfulDescriptor idD := by
  constructor
  · intro A B a f
    rfl
  · intro A m
    rfl
  · intro A B C m f g
    rfl
  · intro mp h
    have h2 : Option.some (fun (A B : Type) (m : Id0 A) (f : A → B) => f m) = Option.some mp := h
    injection h2 with h3
    intro A B m f
    rw [← h3]
    rfl

theorem natAddMonoid_lawful : LawfulMonoid natAddMonoid := by
  constructor
  · intro a b c
    exact Nat.add_assoc a b c
  · intro a
    exact Nat.zero_add a
  · intro a
    exact Nat.add_zero a

/-- The map of `MaybeT` normalizes, for a lawful descriptor, to a single
`flatMap` applying the `Maybe`-layer map inside `of`, on both descriptor
paths. -/
theorem maybeT_map_run {M : Type → Type} {A B : Type} (D : MonadTransDescriptor M)
    (hD : LawfulDescriptor D) (m : M (Maybe A)) (fn : A → B) :
    ((MaybeT.mk m D).map fn).run = D.flatMap m fun maybe => D.of (maybe.map fn) := by
  rcases hmp : D.map? with _ | mp
  · simp only [MaybeT.map, MaybeT.run, hmp]
    exact congrArg (D.flatMap m) (funext fun maybe => by cases maybe <;> rfl)
  · simp only [MaybeT.map, MaybeT.run, hmp]
    rw [hD.map_agrees mp hmp]
    exact congrArg (D.flatMap m) (funext fun maybe => by cases maybe <;> rfl)

/-- The map of `ResultT` normalizes, for a lawful descriptor, to a single
`flatMap` applying the `Result`-layer map inside `of`, on both descriptor
paths. -/
theorem resultT_map_run {M : Type → Type} {E A B : Type} (D : MonadTransDescriptor M)
    (hD : LawfulDescriptor D) (m : M (Result A E)) (fn : A → B) :
    ((ResultT.mk m D).map fn).run = D.flatMap m fun result => D.of (result.map fn) := by
  rcases hmp : D.map? with _ | mp
  · simp only [ResultT.map, ResultT.run, hmp]
    exact congrArg (D.flatMap m) (funext fun result => by cases result <;> rfl)
  · simp only [ResultT.map, ResultT.run, hmp]
    rw [hD.map_agrees mp hmp]
    exact congrArg (D.flatMap m) (funext fun result => by cases result <;> rfl)

/-- The map of `WriterT` normalizes, for a lawful descriptor, to a single
`flatMap` applying the pair-layer map inside `of`, on both descriptor paths. -/
theorem writerT_map_run {M : Type → Type} {W A B : Type} (D : MonadTransDescriptor M)
    (hD : LawfulDescriptor D) (mon : Monoid W) (m : M (A × W)) (fn : A → B) :
    ((WriterT.mk m D mon).map fn).run = D.flatMap m fun p => D.of (fn p.1, p.2) := by
  rcases hmp : D.map? with _ | mp
  · simp only [WriterT.map, WriterT.run, hmp]
  · simp only [WriterT.map, WriterT.run, hmp]
    exact hD.map_agrees mp hmp m _

/-- The map of `ReaderT` at an environment normalizes to the descriptor
fallback protocol applied to the run of the wrapped function. -/
theorem readerT_map_run {R : Type} {M : Type → Type} {A B : Type}
    (t : ReaderT R M A) (fn : A → B) (env : R) :
    (t.map fn).run env = t.monad.mapD (t.run env) fn :=
  rfl

/-- Erasing `map` from a lawful descriptor leaves a lawful descriptor. -/
theorem eraseMap_lawful {M : Type → Type} {D : MonadTransDescriptor M}
    (hD : LawfulDescriptor D) : LawfulDescriptor D.eraseMap := by
  constructor
  · intro A B a f
    exact hD.left_id a f
  · intro A m
    exact hD.right_id m
  · intro A B C m f g
    exact hD.assoc m f g
  · intro mp h
    exact Option.noConfusion h

/-- Claim C4: for the environment-transformer, `(m.flatMap f).run(env)` equals
`descriptor.flatMap(m.run(env), a => f(a).run(env))` — the same environment is
threaded unchanged to the original computation and every continuation — and
`of(a).run(env)` equals `descriptor.of(a)` for every environment. -/
theorem readerT_env_threading {R : Type} {M : Type → Type} {A B : Type}
    (D : MonadTransDescriptor M) (f0 : R → M A) (f : A → ReaderT R M B)
    (a : A) (env : R) :
    ((ReaderT.fromM D f0).flatMap f).run env
      = D.flatMap ((ReaderT.fromM D f0).run env) (fun x => (f x).run env) ∧
    (ReaderT.of D a : ReaderT R M A).run env = D.of a :=
  ⟨rfl, rfl⟩

/-- Claim C8: transformer operations never mutate the instance: each `map` or
`flatMap` call returns a newly constructed instance (a constructor application
carrying the same descriptor and monoid), and the original instance's `run`
still returns the same wrapped inner-monad value as before the call — in this
pure embedding of the readonly-field classes, that value is fixed. -/
theorem transformer_instances_immutable {M : Type → Type} {W A B : Type}
    (D : MonadTransDescriptor M) (mon : Monoid W) :
    (∀ (m : M (Maybe A)) (f : A → B),
        (∃ m2, (MaybeT.mk m D).map f = MaybeT.mk m2 D) ∧ (MaybeT.mk m D).run = m) ∧
    (∀ (m : M (Maybe A)) (g : A → MaybeT M B),
        (∃ m2, (MaybeT.mk m D).flatMap g = MaybeT.mk m2 D) ∧ (MaybeT.mk m D).run = m) ∧
    (∀ (m : M (A × W)) (f : A → B),
        (∃ m2, (WriterT.mk m D mon).map f = WriterT.mk m2 D mon) ∧
          (WriterT.mk m D mon).run = m) ∧
    (∀ (m : M (A × W)) (g : A → WriterT M W B),
        (∃ m2, (WriterT.mk m D mon).flatMap g = WriterT.mk m2 D mon) ∧
          (WriterT.mk m D mon).run = m) :=
  ⟨fun m f => ⟨⟨((MaybeT.mk m D).map f).m, rfl⟩, rfl⟩,
   fun m g => ⟨⟨((MaybeT.mk m D).flatMap g).m, rfl⟩, rfl⟩,
   fun m f => ⟨⟨((WriterT.mk m D mon).map f).m, rfl⟩, rfl⟩,
   fun m g => ⟨⟨((WriterT.mk m D mon).flatMap g).m, rfl⟩, rfl⟩⟩

/-- Claim C10: the absent optional value is a single shared constant:
`none().map(f)` and `none().flatMap(f)` return that same `None` value without
invoking the function (the results are independent of it), and `fromNullable`
returns `None` exactly for `null`/`undefined` and `Some` of the argument
otherwise. -/
theorem maybe_none_constant {A B : Type} :
    (∀ f : A → B, (Maybe.none : Maybe A).map f = Maybe.none) ∧
    (∀ f g : A → B, (Maybe.none : Maybe A).map f = (Maybe.none : Maybe A).map g) ∧
    (∀ h : A → Maybe B, (Maybe.none : Maybe A).flatMap h = Maybe.none) ∧
    (∀ h k : A → Maybe B,
        (Maybe.none : Maybe A).flatMap h = (Maybe.none : Maybe A).flatMap k) ∧
    (Maybe.fromNullable (Option.none : Option A) = Maybe.none) ∧
    (∀ v : A, Maybe.fromNullable (Option.some v) = Maybe.some v) :=
  ⟨fun _ => rfl, fun _ _ => rfl, fun _ => rfl, fun _ _ => rfl, rfl, fun _ => rfl⟩

/-- Claim C1: for the optional-transformer over any lawful inner-monad
descriptor, when the `Maybe` inside the inner monad is `None` (accumulated
effects `u` followed by `of(None)`), any two continuations give equal
`flatMap` results (the chained function is never invoked), the final `run()`
yields a `None` Maybe layer wrapped in the accumulated effects, and on the
pure `of(None)` value `flatMap` returns exactly `descriptor.of(None)`. -/
theorem maybeT_short_circuit {M : Type → Type} (D : MonadTransDescriptor M)
    (hD : LawfulDescriptor D) {A B : Type} (u : M PUnit) (f g : A → MaybeT M B) :
    ((MaybeT.mk (D.flatMap u fun _ => D.of (Maybe.none : Maybe A)) D).flatMap f).run
        = ((MaybeT.mk (D.flatMap u fun _ => D.of (Maybe.none : Maybe A)) D).flatMap g).run ∧
    ((MaybeT.mk (D.flatMap u fun _ => D.of (Maybe.none : Maybe A)) D).flatMap f).run
        = (D.flatMap u fun _ => D.of (Maybe.none : Maybe B)) ∧
    ((MaybeT.mk (D.of (Maybe.none : Maybe A)) D).flatMap f).run
        = D.of (Maybe.none : Maybe B) := by
  have key : ∀ k : A → MaybeT M B,
      ((MaybeT.mk (D.flatMap u fun _ => D.of (Maybe.none : Maybe A)) D).flatMap k).run
        = D.flatMap u fun _ => D.of (Maybe.none : Maybe B) := by
    intro k
    show D.flatMap (D.flatMap u fun _ => D.of (Maybe.none : Maybe A)) _ = _
    rw [hD.assoc]
    exact congrArg (D.flatMap u) (funext fun x => hD.left_id _ _)
  refine ⟨(key f).trans (key g).symm, key f, ?_⟩
  show D.flatMap (D.of (Maybe.none : Maybe A)) _ = _
  exact hD.left_id _ _

/-- Claim C3: for the error-transformer over any lawful descriptor, `map` and
`flatMap` applied to an `Err` propagate the original error value unchanged
(through accumulated inner effects `u` and in the pure case), and the results
do not depend on the chained functions, so the first error in a chain is the
one observed at the end. -/
theorem resultT_error_passthrough {M : Type → Type} (D : MonadTransDescriptor M)
    (hD : LawfulDescriptor D) {A B E : Type} (e : E) (u : M PUnit)
    (f : A → B) (g h : A → ResultT M E B) :
    ((ResultT.mk (D.flatMap u fun _ => D.of (Result.err e : Result A E)) D).map f).run
        = (D.flatMap u fun _ => D.of (Result.err e : Result B E)) ∧
    ((ResultT.mk (D.flatMap u fun _ => D.of (Result.err e : Result A E)) D).flatMap g).run
        = (D.flatMap u fun _ => D.of (Result.err e : Result B E)) ∧
    ((ResultT.mk (D.flatMap u fun _ => D.of (Result.err e : Result A E)) D).flatMap g).run
        = ((ResultT.mk (D.flatMap u fun _ => D.of (Result.err e : Result A E)) D).flatMap h).run ∧
    ((ResultT.mk (D.of (Result.err e : Result A E)) D).map f).run
        = D.of (Result.err e : Result B E) ∧
    ((ResultT.mk (D.of (Result.err e : Result A E)) D).flatMap g).run
        = D.of (Result.err e : Result B E) := by
  have keyF : ∀ k : A → ResultT M E B,
      ((ResultT.mk (D.flatMap u fun _ => D.of (Result.err e : Result A E)) D).flatMap k).run
        = D.flatMap u fun _ => D.of (Result.err e : Result B E) := by
    intro k
    show D.flatMap (D.flatMap u fun _ => D.of (Result.err e : Result A E)) _ = _
    rw [hD.assoc]
    exact congrArg (D.flatMap u) (funext fun x => hD.left_id _ _)
  have keyM :
      ((ResultT.mk (D.flatMap u fun _ => D.of (Result.err e : Result A E)) D).map f).run
        = D.flatMap u fun _ => D.of (Result.err e : Result B E) := by
    rw [resultT_map_run D hD]
    rw [hD.assoc]
    exact congrArg (D.flatMap u) (funext fun x => hD.left_id _ _)
  refine ⟨keyM, keyF g, (keyF g).trans (keyF h).symm, ?_, ?_⟩
  · rw [resultT_map_run D hD]
    exact hD.left_id _ _
  · show D.flatMap (D.of (Result.err e : Result A E)) _ = _
    exact hD.left_id _ _

/-- Claim C5: left identity holds for every transformer kind over any lawful
inner-monad descriptor (and, for the log-transformer, any lawful monoid):
`T.of(a).flatMap(f).run()` equals `f(a).run()`, for the environment-transformer
at every environment. -/
theorem transformer_left_identity {M : Type → Type} {W : Type}
    (D : MonadTransDescriptor M) (hD : LawfulDescriptor D)
    (mon : Monoid W) (hmon : LawfulMonoid mon) (A B E R : Type) :
    (∀ (a : A) (f : A → MaybeT M B), ((MaybeT.of D a).flatMap f).run = (f a).run) ∧
    (∀ (a : A) (f : A → ResultT M E B), ((ResultT.of D a).flatMap f).run = (f a).run) ∧
    (∀ (a : A) (f : A → ReaderT R M B) (env : R),
        ((ReaderT.of D a : ReaderT R M A).flatMap f).run env = (f a).run env) ∧
    (∀ (a : A) (f : A → WriterT M W B), ((WriterT.of D mon a).flatMap f).run = (f a).run) := by
  refine ⟨?_, ?_, ?_, ?_⟩
  · intro a f
    show D.flatMap (D.of (Maybe.some a)) _ = _
    exact hD.left_id _ _
  · intro a f
    show D.flatMap (D.of (Result.ok a)) _ = _
    exact hD.left_id _ _
  · intro a f env
    show D.flatMap (D.of a) _ = _
    exact hD.left_id _ _
  · intro a f
    show D.flatMap (D.of (a, mon.empty)) _ = _
    rw [hD.left_id]
    show D.flatMap (f a).run (fun q => D.of (q.1, mon.concat mon.empty q.2)) = _
    have h2 : (fun q : B × W => D.of (q.1, mon.concat mon.empty q.2))
        = fun q : B × W => D.of q :=
      funext fun q => by rw [hmon.empty_left]
    rw [h2]
    exact hD.right_id _

/-- Claim C6: descriptor fallback equivalence: for any lawful descriptor, the
fallback protocol and the transformer maps give observably equal results
whether the descriptor supplies `map` or an equivalent descriptor lacks it. -/
theorem descriptor_fallback_equiv {M : Type → Type} (D : MonadTransDescriptor M)
    (hD : LawfulDescriptor D) {W A B : Type} (mon : Monoid W)
    (m0 : M A) (fn0 : A → B) (mm : M (Maybe A)) (fn : A → B) (mw : M (A × W)) :
    D.mapD m0 fn0 = D.eraseMap.mapD m0 fn0 ∧
    ((MaybeT.mk mm D).map fn).run = ((MaybeT.mk mm D.eraseMap).map fn).run ∧
    ((WriterT.mk mw D mon).map fn).run = ((WriterT.mk mw D.eraseMap mon).map fn).run := by
  refine ⟨?_, ?_, ?_⟩
  · rcases hmp : D.map? with _ | mp
    · simp only [MonadTransDescriptor.mapD, MonadTransDescriptor.eraseMap, hmp]
    · simp only [MonadTransDescriptor.mapD, MonadTransDescriptor.eraseMap, hmp]
      exact hD.map_agrees mp hmp m0 fn0
  · rw [maybeT_map_run D hD, maybeT_map_run D.eraseMap (eraseMap_lawful hD)]
    rfl
  · rw [writerT_map_run D hD mon, writerT_map_run D.eraseMap (eraseMap_lawful hD) mon]
    rfl

/-- Claim C7: for the log-transformer, `map` transforms only the first
component of the wrapped pair and leaves the log untouched: a pair `(a, w)`
inside the inner monad (pure, or behind accumulated effects `u`) becomes
`(fn(a), w)` with the identical log `w`. -/
theorem writerT_map_frame {M : Type → Type} (D : MonadTransDescriptor M)
    (hD : LawfulDescriptor D) {W A B : Type} (mon : Monoid W) (fn : A → B) :
    (∀ (a : A) (w : W),
        ((WriterT.mk (D.of (a, w)) D mon).map fn).run = D.of (fn a, w)) ∧
    (∀ (u : M PUnit) (a : A) (w : W),
        ((WriterT.mk (D.flatMap u fun _ => D.of (a, w)) D mon).map fn).run
          = D.flatMap u fun _ => D.of (fn a, w)) := by
  constructor
  · intro a w
    rw [writerT_map_run D hD mon]
    exact hD.left_id _ _
  · intro u a w
    rw [writerT_map_run D hD mon]
    rw [hD.assoc]
    exact congrArg (D.flatMap u) (funext fun x => hD.left_id _ _)

/-- Claim C9: environment determinism for the environment-transformer: running
with equal environments yields equal results, and `map` introduces no
dependence beyond the computation's own dependence on the environment — if the
underlying runs agree at two environments, the mapped runs agree there too. -/
theorem readerT_env_determinism {R : Type} {M : Type → Type} {A B : Type}
    (t : ReaderT R M A) (fn : A → B) (env1 env2 : R) :
    (env1 = env2 → t.run env1 = t.run env2) ∧
    (t.run env1 = t.run env2 → (t.map fn).run env1 = (t.map fn).run env2) := by
  constructor
  · intro h
    rw [h]
  · intro h
    rw [readerT_map_run, readerT_map_run, h]

/-- A left-associated chain of pure log-transformer steps: each step applies a
function to the value and contributes its own log entry via the factory
`from`. -/
def wchainL {M : Type → Type} {W A : Type} (D : MonadTransDescriptor M)
    (mon : Monoid W) (t : WriterT M W A) : List ((A → A) × W) → WriterT M W A
  | List.nil => t
  | List.cons s rest =>
      wchainL D mon (t.flatMap fun a => WriterT.fromM D mon (D.of (s.1 a, s.2))) rest

/-- The same chain of pure log-transformer steps associated to the right. -/
def wchainR {M : Type → Type} {W A : Type} (D : MonadTransDescriptor M)
    (mon : Monoid W) (t : WriterT M W A) : List ((A → A) × W) → WriterT M W A
  | List.nil => t
  | List.cons s rest =>
      t.flatMap fun a => wchainR D mon (WriterT.fromM D mon (D.of (s.1 a, s.2))) rest

/-- Folding with an associative `concat` commutes with prepending a log. -/
theorem concat_foldl {W : Type} (mon : Monoid W) (hmon : LawfulMonoid mon) :
    ∀ (l : List W) (w1 w2 : W),
      mon.concat w1 (l.foldl mon.concat w2) = l.foldl mon.concat (mon.concat w1 w2) := by
  intro l
  induction l with
  | nil =>
      intro w1 w2
      rfl
  | cons x xs ih =>
      intro w1 w2
      show mon.concat w1 (xs.foldl mon.concat (mon.concat w2 x))
          = xs.foldl mon.concat (mon.concat (mon.concat w1 w2) x)
      rw [ih, hmon.concat_assoc]

/-- Running a left-associated chain of pure steps yields the left-to-right
value fold paired with the left-to-right log fold. -/
theorem wchainL_run {M : Type → Type} {W A : Type} (D : MonadTransDescriptor M)
    (hD : LawfulDescriptor D) (mon : Monoid W) :
    ∀ (steps : List ((A → A) × W)) (a : A) (w : W),
      (wchainL D mon (WriterT.fromM D mon (D.of (a, w))) steps).run
        = D.of (steps.foldl (fun acc s => s.1 acc) a,
                (steps.map Prod.snd).foldl mon.concat w) := by
  intro steps
  induction steps with
  | nil =>
      intro a w
      rfl
  | cons s rest ih =>
      intro a w
      have hBig : D.flatMap (D.of ((a, w) : A × W))
            (fun p => D.flatMap ((WriterT.fromM D mon (D.of (s.1 p.1, s.2))).run)
               fun q => D.of (q.1, mon.concat p.2 q.2))
          = D.of ((s.1 a, mon.concat w s.2) : A × W) := by
        rw [hD.left_id]
        exact hD.left_id _ _
      have hstep : (WriterT.fromM D mon (D.of ((a, w) : A × W))).flatMap
            (fun x => WriterT.fromM D mon (D.of (s.1 x, s.2)))
          = WriterT.fromM D mon (D.of ((s.1 a, mon.concat w s.2) : A × W)) :=
        congrArg (WriterT.fromM D mon) hBig
      show (wchainL D mon ((WriterT.fromM D mon (D.of ((a, w) : A × W))).flatMap
          (fun x => WriterT.fromM D mon (D.of (s.1 x, s.2)))) rest).run = _
      rw [hstep]
      exact ih (s.1 a) (mon.concat w s.2)

/-- Running a right-associated chain of pure steps yields the same left-to-right
folds, given a lawful monoid. -/
theorem wchainR_run {M : Type → Type} {W A : Type} (D : MonadTransDescriptor M)
    (hD : LawfulDescriptor D) (mon : Monoid W) (hmon : LawfulMonoid mon) :
    ∀ (steps : List ((A → A) × W)) (a : A) (w : W),
      (wchainR D mon (WriterT.fromM D mon (D.of (a, w))) steps).run
        = D.of (steps.foldl (fun acc s => s.1 acc) a,
                (steps.map Prod.snd).foldl mon.concat w) := by
  intro steps
  induction steps with
  | nil =>
      intro a w
      rfl
  | cons s rest ih =>
      intro a w
      show D.flatMap (D.of ((a, w) : A × W))
          (fun p => D.flatMap
            ((wchainR D mon (WriterT.fromM D mon (D.of (s.1 p.1, s.2))) rest).run)
            fun q => D.of (q.1, mon.concat p.2 q.2)) = _
      rw [hD.left_id]
      show D.flatMap
          ((wchainR D mon (WriterT.fromM D mon (D.of ((s.1 a, s.2) : A × W))) rest).run)
          (fun q => D.of (q.1, mon.concat w q.2)) = _
      rw [ih (s.1 a) s.2]
      rw [hD.left_id]
      show D.of (rest.foldl (fun acc s2 => s2.1 acc) (s.1 a),
            mon.concat w ((rest.map Prod.snd).foldl mon.concat s.2)) = _
      rw [concat_foldl mon hmon]
      rfl

/-- Claim C2: for the log-transformer over any lawful descriptor and lawful
monoid, `flatMap` combines logs as `concat(w, w2)` with the original log
first, and any chain of pure steps — of any length, in particular three or
more — yields a final log equal to the left-to-right concat-fold of all
intermediate logs, regardless of how the chain is associated. -/
theorem writerT_log_fold {M : Type → Type} {W : Type} (D : MonadTransDescriptor M)
    (hD : LawfulDescriptor D) (mon : Monoid W) (hmon : LawfulMonoid mon)
    (A B : Type) :
    (∀ (a : A) (w : W) (fn : A → WriterT M W B),
        ((WriterT.fromM D mon (D.of (a, w))).flatMap fn).run
          = D.flatMap (fn a).run fun q => D.of (q.1, mon.concat w q.2)) ∧
    (∀ (steps : List ((A → A) × W)) (a : A) (w0 : W),
        (wchainL D mon (WriterT.fromM D mon (D.of (a, w0))) steps).run
          = D.of (steps.foldl (fun acc s => s.1 acc) a,
                  (steps.map Prod.snd).foldl mon.concat w0)) ∧
    (∀ (steps : List ((A → A) × W)) (a : A) (w0 : W),
        (wchainR D mon (WriterT.fromM D mon (D.of (a, w0))) steps).run
          = (wchainL D mon (WriterT.fromM D mon (D.of (a, w0))) steps).run) := by
  refine ⟨?_, wchainL_run D hD mon, ?_⟩
  · intro a w fn
    show D.flatMap (D.of ((a, w) : A × W)) _ = _
    rw [hD.left_id]
    rfl
  · intro steps a w0
    rw [wchainR_run D hD mon hmon, wchainL_run D hD mon]

/-- Concrete continuation used by the C1 witness. -/
def c1f : Nat → MaybeT Id0 Nat := fun n => MaybeT.of idD (n + 1)

/-- Second concrete continuation used by the C1 witness. -/
def c1g : Nat → MaybeT Id0 Nat := fun n => MaybeT.of idD (n * 2)

/-- Witness for C1 at the identity inner monad: the hypotheses are satisfied
and the short-circuit conclusions hold at concrete inputs. -/
theorem maybeT_short_circuit_witness :
    LawfulDescriptor idD ∧
    ((MaybeT.mk (idD.flatMap (PUnit.unit : Id0 PUnit)
        fun _ => idD.of (Maybe.none : Maybe Nat)) idD).flatMap c1f).run
      = (idD.flatMap (PUnit.unit : Id0 PUnit) fun _ => idD.of (Maybe.none : Maybe Nat)) ∧
    ((MaybeT.mk (idD.of (Maybe.none : Maybe Nat)) idD).flatMap c1f).run
      = idD.of (Maybe.none : Maybe Nat) :=
  ⟨idD_lawful,
   (maybeT_short_circuit idD idD_lawful PUnit.unit c1f c1g).2.1,
   (maybeT_short_circuit idD idD_lawful PUnit.unit c1f c1g).2.2⟩

/-- Concrete plain function used by the C3 witness. -/
def c3f : Nat → Nat := fun n => n + 5

/-- Concrete continuation used by the C3 witness. -/
def c3g : Nat → ResultT Id0 Nat Nat := fun n => ResultT.of idD (n + 1)

/-- Second concrete continuation used by the C3 witness. -/
def c3h : Nat → ResultT Id0 Nat Nat := fun n => ResultT.of idD (n * 2)

/-- Witness for C3 at the identity inner monad: the error value 7 passes
through `map` and `flatMap` unchanged. -/
theorem resultT_error_passthrough_witness :
    LawfulDescriptor idD ∧
    ((ResultT.mk (idD.of (Result.err 7 : Result Nat Nat)) idD).map c3f).run
      = idD.of (Result.err 7 : Result Nat Nat) ∧
    ((ResultT.mk (idD.of (Result.err 7 : Result Nat Nat)) idD).flatMap c3g).run
      = idD.of (Result.err 7 : Result Nat Nat) :=
  ⟨idD_lawful,
   (resultT_error_passthrough idD idD_lawful 7 PUnit.unit c3f c3g c3h).2.2.2.1,
   (resultT_error_passthrough idD idD_lawful 7 PUnit.unit c3f c3g c3h).2.2.2.2⟩

/-- Concrete optional-transformer continuation used by the C5 witness. -/
def c5mt : Nat → MaybeT Id0 Nat := fun n => MaybeT.of idD (n + 2)

/-- Concrete error-transformer continuation used by the C5 witness. -/
def c5rt : Nat → ResultT Id0 Nat Nat := fun n => ResultT.of idD (n * 3)

/-- Concrete environment-transformer continuation used by the C5 witness. -/
def c5rd : Nat → ReaderT Nat Id0 Nat := fun n => ReaderT.fromM idD (fun r => r + n)

/-- Concrete log-transformer continuation used by the C5 witness. -/
def c5wt : Nat → WriterT Id0 Nat Nat :=
  fun n => WriterT.fromM idD natAddMonoid (idD.of (n + 1, 4))

/-- Witness for C5: left identity at the identity inner monad and the
Nat-addition monoid, for all four transformer kinds at concrete inputs. -/
theorem transformer_left_identity_witness :
    LawfulDescriptor idD ∧ LawfulMonoid natAddMonoid ∧
    ((MaybeT.of idD 4).flatMap c5mt).run = (c5mt 4).run ∧
    ((ResultT.of idD 4 : ResultT Id0 Nat Nat).flatMap c5rt).run = (c5rt 4).run ∧
    ((ReaderT.of idD 4 : ReaderT Nat Id0 Nat).flatMap c5rd).run 9 = (c5rd 4).run 9 ∧
    ((WriterT.of idD natAddMonoid 4).flatMap c5wt).run = (c5wt 4).run :=
  ⟨idD_lawful, natAddMonoid_lawful,
   (transformer_left_identity idD idD_lawful natAddMonoid natAddMonoid_lawful
     Nat Nat Nat Nat).1 4 c5mt,
   (transformer_left_identity idD idD_lawful natAddMonoid natAddMonoid_lawful
     Nat Nat Nat Nat).2.1 4 c5rt,
   (transformer_left_identity idD idD_lawful natAddMonoid natAddMonoid_lawful
     Nat Nat Nat Nat).2.2.1 4 c5rd 9,
   (transformer_left_identity idD idD_lawful natAddMonoid natAddMonoid_lawful
     Nat Nat Nat Nat).2.2.2 4 c5wt⟩

/-- Concrete plain function used by the C6 witness. -/
def c6fn : Nat → Nat := fun n => n + 1

/-- Witness for C6: at the identity inner monad, the map path and the
flatMap-derived fallback path produce equal results. -/
theorem descriptor_fallback_equiv_witness :
    LawfulDescriptor idD ∧
    idD.mapD (3 : Id0 Nat) c6fn = idD.eraseMap.mapD (3 : Id0 Nat) c6fn ∧
    ((MaybeT.mk (Maybe.some 2) idD : MaybeT Id0 Nat).map c6fn).run
      = ((MaybeT.mk (Maybe.some 2) idD.eraseMap : MaybeT Id0 Nat).map c6fn).run ∧
    ((WriterT.mk (2, 7) idD natAddMonoid : WriterT Id0 Nat Nat).map c6fn).run
      = ((WriterT.mk (2, 7) idD.eraseMap natAddMonoid : WriterT Id0 Nat Nat).map c6fn).run :=
  ⟨idD_lawful,
   (descriptor_fallback_equiv idD idD_lawful natAddMonoid 3 c6fn (Maybe.some 2) c6fn (2, 7)).1,
   (descriptor_fallback_equiv idD idD_lawful natAddMonoid 3 c6fn (Maybe.some 2) c6fn (2, 7)).2.1,
   (descriptor_fallback_equiv idD idD_lawful natAddMonoid 3 c6fn (Maybe.some 2) c6fn (2, 7)).2.2⟩

/-- Concrete plain function used by the C7 witness. -/
def c7fn : Nat → Nat := fun n => n * 2

/-- Witness for C7: at the identity inner monad, map doubles the value and
keeps the log 9 untouched, in the pure and the effectful shape. -/
theorem writerT_map_frame_witness :
    LawfulDescriptor idD ∧
    ((WriterT.mk (idD.of ((3, 9) : Nat × Nat)) idD natAddMonoid).map c7fn).run
      = idD.of ((c7fn 3, 9) : Nat × Nat) ∧
    ((WriterT.mk (idD.flatMap (PUnit.unit : Id0 PUnit)
        fun _ => idD.of ((3, 9) : Nat × Nat)) idD natAddMonoid).map c7fn).run
      = (idD.flatMap (PUnit.unit : Id0 PUnit) fun _ => idD.of ((c7fn 3, 9) : Nat × Nat)) :=
  ⟨idD_lawful,
   (writerT_map_frame idD idD_lawful natAddMonoid c7fn).1 3 9,
   (writerT_map_frame idD idD_lawful natAddMonoid c7fn).2 PUnit.unit 3 9⟩

/-- Concrete environment-independent reader used by the C9 witness. -/
def c9t : ReaderT Nat Id0 Nat := ReaderT.lift idD (5 : Id0 Nat)

/-- Concrete plain function used by the C9 witness. -/
def c9fn : Nat → Nat := fun n => n * 3

/-- Witness for C9: the lifted constant reader runs equal at equal
environments, and its map runs equal even at different environments. -/
theorem readerT_env_determinism_witness :
    c9t.run 2 = c9t.run 2 ∧ (c9t.map c9fn).run 2 = (c9t.map c9fn).run 3 :=
  ⟨(readerT_env_determinism c9t c9fn 2 2).1 rfl,
   (readerT_env_determinism c9t c9fn 2 3).2 rfl⟩

/-- A concrete three-step chain used by the C2 witness. -/
def c2steps : List ((Nat → Nat) × Nat) :=
  List.cons (fun n => n + 1, 10)
    (List.cons (fun n => n * 2, 20) (List.cons (fun n => n + 3, 30) List.nil))

/-- Witness for C2: a three-step chain at the identity inner monad and the
Nat-addition monoid folds its logs 5,10,20,30 to 65 and its value 1 to 7,
identically for both associations. -/
theorem writerT_log_fold_witness :
    LawfulDescriptor idD ∧ LawfulMonoid natAddMonoid ∧
    (wchainL idD natAddMonoid
        (WriterT.fromM idD natAddMonoid (idD.of ((1, 5) : Nat × Nat))) c2steps).run
      = idD.of ((7, 65) : Nat × Nat) ∧
    (wchainR idD natAddMonoid
        (WriterT.fromM idD natAddMonoid (idD.of ((1, 5) : Nat × Nat))) c2steps).run
      = (wchainL idD natAddMonoid
          (WriterT.fromM idD natAddMonoid (idD.of ((1, 5) : Nat × Nat))) c2steps).run :=
  ⟨idD_lawful, natAddMonoid_lawful,
   ((writerT_log_fold idD idD_lawful natAddMonoid natAddMonoid_lawful
      Nat Nat).2.1 c2steps 1 5).trans rfl,
   (writerT_log_fold idD idD_lawful natAddMonoid natAddMonoid_lawful
      Nat Nat).2.2 c2steps 1 5⟩

end TsToolbox
